import Mathlib

/-!
Verification of the library-management borrowing engine.

The Python source keeps three dictionaries indexed by string ids of the
shape `B{n}`, `M{n}`, `T{n}`, each generated from a per-kind
monotonically increasing counter.  We represent an id by its numeric
part (the formatting `n ↦ "B" ++ toString n` is injective, and the three
kinds live in separate maps), and a dictionary by an association list
with no duplicate keys, first match wins.
-/

namespace LibSys

/-- A Python dict keyed by (the numeric part of) an id. -/
abbrev Map (α : Type) := List (Nat × α)

/-- Dictionary lookup: `d[k]` / `k in d`. -/
def find? {α : Type} (k : Nat) : Map α → Option α
  | [] => none
  | (k2, v) :: m => if k2 = k then some v else find? k m

/-- The key set of a dictionary, as a list. -/
def keys {α : Type} (m : Map α) : List Nat := m.map Prod.fst

/-- Replace the value stored at an existing key (in-place mutation of the
object held in the dict). -/
def setk {α : Type} (k : Nat) (v : α) : Map α → Map α
  | [] => []
  | (k2, v2) :: m => if k2 = k then (k2, v) :: m else (k2, v2) :: setk k v m

/-- Remove a key: `del d[k]`. -/
def delk {α : Type} (k : Nat) : Map α → Map α
  | [] => []
  | (k2, v2) :: m => if k2 = k then m else (k2, v2) :: delk k m

/-- The dictionary invariant: every key occurs at most once. -/
def NodupKeys {α : Type} (m : Map α) : Prop := (keys m).Nodup

/-- One day of `timedelta`, in seconds. -/
def daySecs : Int := 86400

/-- The source's `Book.__init__`: `available_copies` starts at `total_copies`
and `is_available` starts at `True` (unconditionally, even for zero copies). -/
structure Book where
  title : String
  author : String
  isbn : String
  genre : String
  total_copies : Nat
  available_copies : Nat
  is_available : Bool
  deriving DecidableEq

/-- The source's `Member.__init__`: `borrowed_books` holds the ids of this
member's open transactions (Python stores the id strings; we store their
numeric parts). -/
structure Member where
  name : String
  email : String
  phone : String
  borrowed_books : List Nat
  membership_date : Int
  is_active : Bool
  deriving DecidableEq

/-- The source's `Transaction.__init__`: `return_date` is `None` until the
book comes back, `fine` starts at `0.0`. -/
structure Transaction where
  member_id : Nat
  book_id : Nat
  borrow_date : Int
  due_date : Int
  return_date : Option Int
  fine : Nat
  deriving DecidableEq

/-- Result of `borrow_book`: the source returns `(False, message)` with a
distinct message per failed check, or `(True, transaction_id)`.
Here `notFound` is "Invalid member or book ID", `memberInactive` is
"Member account is inactive", `bookUnavailable` is "Book not available",
and `borrowLimitExceeded` is "Member has reached maximum borrowing limit
(3 books)". -/
inductive BorrowResult where
  | notFound
  | memberInactive
  | bookUnavailable
  | borrowLimitExceeded
  | ok (transaction_id : Nat)
  deriving DecidableEq

/-- Whether a `borrow_book` call succeeded (the `True` component of the
source's result pair). -/
def BorrowResult.isOk : BorrowResult → Bool
  | .ok _ => true
  | _ => false

/-- Result of `return_book`: `notFound` is `(False, "Invalid transaction
ID")`, `alreadyReturned` is `(False, "Book already returned")`, and
`ok fine` is `(True, transaction.fine)`. -/
inductive ReturnResult where
  | notFound
  | alreadyReturned
  | ok (fine : Nat)
  deriving DecidableEq

/-- Whether a `return_book` call succeeded. -/
def ReturnResult.isOk : ReturnResult → Bool
  | .ok _ => true
  | _ => false

/-- The in-memory state of the source's `LibraryManagementSystem`.
Its `transaction_stack` stores references to transaction objects; a
reference into the store is modelled by the transaction id.  The
reservation queue `book_queue` is never touched by any operation and is
omitted; `save_data`/`load_data` (file I/O) are outside the state
machine. -/
structure LibraryManagementSystem where
  books : Map Book
  members : Map Member
  transactions : Map Transaction
  transaction_stack : List Nat
  book_counter : Nat
  member_counter : Nat
  transaction_counter : Nat
  deriving DecidableEq

/-- The state built by `__init__` (before any `load_data`). -/
def initLibrary : LibraryManagementSystem :=
  { books := [], members := [], transactions := [], transaction_stack := []
    book_counter := 1000, member_counter := 100, transaction_counter := 10000 }

/-- The open transactions currently out for a given book, as counted by
the filter in `delete_book` (`t.book_id == book_id and t.return_date is
None`). -/
def openTxFor (book_id : Nat) (ts : Map Transaction) : Nat :=
  ts.countP fun p => p.2.book_id == book_id && p.2.return_date.isNone

/-- The open transactions belonging to a given member. -/
def openTxForMember (member_id : Nat) (ts : Map Transaction) : Nat :=
  ts.countP fun p => p.2.member_id == member_id && p.2.return_date.isNone

/-- The source's `LibraryManagementSystem.add_book`. -/
def add_book (lib : LibraryManagementSystem)
    (title author isbn genre : String) (total_copies : Nat) :
    LibraryManagementSystem × Nat :=
  let book_id := lib.book_counter
  let book : Book :=
    { title := title, author := author, isbn := isbn, genre := genre
      total_copies := total_copies, available_copies := total_copies
      is_available := true }
  ({ lib with book_counter := lib.book_counter + 1
              books := (book_id, book) :: lib.books }, book_id)

/-- The source's `LibraryManagementSystem.register_member` (`now` is
`datetime.now()`). -/
def register_member (lib : LibraryManagementSystem)
    (name email phone : String) (now : Int) :
    LibraryManagementSystem × Nat :=
  let member_id := lib.member_counter
  let member : Member :=
    { name := name, email := email, phone := phone, borrowed_books := []
      membership_date := now, is_active := true }
  ({ lib with member_counter := lib.member_counter + 1
              members := (member_id, member) :: lib.members }, member_id)

/-- The source's `LibraryManagementSystem.delete_book`: refuses when the
book is unknown or has an open transaction, in both cases returning
`False`. -/
def delete_book (lib : LibraryManagementSystem) (book_id : Nat) :
    LibraryManagementSystem × Bool :=
  match find? book_id lib.books with
  | none => (lib, false)
  | some _ =>
    if 0 < openTxFor book_id lib.transactions then (lib, false)
    else ({ lib with books := delk book_id lib.books }, true)

/-- A `key=value` keyword argument to `update_book`.  The source's
`setattr` loop accepts every attribute `Book` has; names not on the
object fail `hasattr` and are skipped (`unknownAttr`). -/
inductive BookKwarg where
  | title (v : String)
  | author (v : String)
  | isbn (v : String)
  | genre (v : String)
  | total_copies (v : Nat)
  | available_copies (v : Nat)
  | is_available (v : Bool)
  | unknownAttr
  deriving DecidableEq

/-- One `setattr(book, key, value)` step of `update_book`. -/
def applyBookKwarg (b : Book) : BookKwarg → Book
  | .title v => { b with title := v }
  | .author v => { b with author := v }
  | .isbn v => { b with isbn := v }
  | .genre v => { b with genre := v }
  | .total_copies v => { b with total_copies := v }
  | .available_copies v => { b with available_copies := v }
  | .is_available v => { b with is_available := v }
  | .unknownAttr => b

/-- The source's `LibraryManagementSystem.update_book`. -/
def update_book (lib : LibraryManagementSystem) (book_id : Nat)
    (kwargs : List BookKwarg) : LibraryManagementSystem × Bool :=
  match find? book_id lib.books with
  | none => (lib, false)
  | some book =>
    ({ lib with books := setk book_id (kwargs.foldl applyBookKwarg book) lib.books },
      true)

/-- A `key=value` keyword argument to `update_member`. -/
inductive MemberKwarg where
  | name (v : String)
  | email (v : String)
  | phone (v : String)
  | borrowed_books (v : List Nat)
  | membership_date (v : Int)
  | is_active (v : Bool)
  | unknownAttr
  deriving DecidableEq

/-- One `setattr(member, key, value)` step of `update_member`. -/
def applyMemberKwarg (m : Member) : MemberKwarg → Member
  | .name v => { m with name := v }
  | .email v => { m with email := v }
  | .phone v => { m with phone := v }
  | .borrowed_books v => { m with borrowed_books := v }
  | .membership_date v => { m with membership_date := v }
  | .is_active v => { m with is_active := v }
  | .unknownAttr => m

/-- The source's `LibraryManagementSystem.update_member`. -/
def update_member (lib : LibraryManagementSystem) (member_id : Nat)
    (kwargs : List MemberKwarg) : LibraryManagementSystem × Bool :=
  match find? member_id lib.members with
  | none => (lib, false)
  | some member =>
    ({ lib with members := setk member_id (kwargs.foldl applyMemberKwarg member) lib.members },
      true)

/-- The source's `LibraryManagementSystem.borrow_book` (`now` is
`datetime.now()`; `due_date = borrow_date + timedelta(days=14)`). -/
def borrow_book (lib : LibraryManagementSystem) (member_id book_id : Nat)
    (now : Int) : LibraryManagementSystem × BorrowResult :=
  match find? member_id lib.members, find? book_id lib.books with
  | some member, some book =>
    if !member.is_active then (lib, .memberInactive)
    else if book.available_copies ≤ 0 then (lib, .bookUnavailable)
    else if 3 ≤ member.borrowed_books.length then (lib, .borrowLimitExceeded)
    else
      let transaction_id := lib.transaction_counter
      let borrow_date := now
      let due_date := borrow_date + 14 * daySecs
      let t : Transaction :=
        { member_id := member_id, book_id := book_id, borrow_date := borrow_date
          due_date := due_date, return_date := none, fine := 0 }
      let book2 : Book :=
        { book with available_copies := book.available_copies - 1
                    is_available := if book.available_copies - 1 = 0 then false
                                    else book.is_available }
      let member2 : Member :=
        { member with borrowed_books := member.borrowed_books ++ [transaction_id] }
      ({ lib with transactions := (transaction_id, t) :: lib.transactions
                  transaction_counter := lib.transaction_counter + 1
                  books := setk book_id book2 lib.books
                  members := setk member_id member2 lib.members
                  transaction_stack := lib.transaction_stack ++ [transaction_id] },
        .ok transaction_id)
  | _, _ => (lib, .notFound)

/-- The source's `LibraryManagementSystem.return_book`.  The two guarded
failures return `(False, message)` before any mutation.  Past the guards
the source looks up `self.books[transaction.book_id]`,
`self.members[transaction.member_id]` and calls
`member.borrowed_books.remove(transaction_id)` without any check; a
`KeyError`/`ValueError` escaping from those is modelled as `none`.
Note `(return_date - due_date).days` on a positive `timedelta` is the
number of whole days, truncated toward zero. -/
def return_book (lib : LibraryManagementSystem) (transaction_id : Nat)
    (now : Int) : Option (LibraryManagementSystem × ReturnResult) :=
  match find? transaction_id lib.transactions with
  | none => some (lib, .notFound)
  | some t =>
    if t.return_date.isSome then some (lib, .alreadyReturned)
    else
      let fine : Nat := if t.due_date < now then (now - t.due_date).toNat / 86400 else t.fine
      let t2 : Transaction := { t with return_date := some now, fine := fine }
      match find? t.book_id lib.books with
      | none => none
      | some book =>
        let book2 : Book :=
          { book with available_copies := book.available_copies + 1
                      is_available := true }
        match find? t.member_id lib.members with
        | none => none
        | some member =>
          if transaction_id ∈ member.borrowed_books then
            let member2 : Member :=
              { member with borrowed_books := member.borrowed_books.erase transaction_id }
            some ({ lib with transactions := setk transaction_id t2 lib.transactions
                             books := setk t.book_id book2 lib.books
                             members := setk t.member_id member2 lib.members },
              .ok fine)
          else none

namespace Updated

/-- The updated `Member.__init__`, with annual-membership-fee fields. -/
structure Member where
  name : String
  email : String
  phone : String
  borrowed_books : List Nat
  membership_date : Int
  is_active : Bool
  annual_membership_fee : Int
  membership_expiry_date : Int
  last_fee_payment_date : Int
  deriving DecidableEq

/-- The updated system's state: the three collections, no counters. -/
structure LibraryManagementSystem where
  books : Map Book
  members : Map Updated.Member
  transactions : Map Transaction
  deriving DecidableEq

/-- The updated system's `update_member_fee`: sets `annual_membership_fee`
only. -/
def update_member_fee (lib : Updated.LibraryManagementSystem)
    (member_id : Nat) (new_fee : Int) :
    Updated.LibraryManagementSystem × Bool :=
  match find? member_id lib.members with
  | none => (lib, false)
  | some member =>
    let member2 : Updated.Member := { member with annual_membership_fee := new_fee }
    ({ lib with members := setk member_id member2 lib.members }, true)

/-- The updated system's `check_membership_status`: active iff
`now <= membership_expiry_date`. -/
def check_membership_status (lib : Updated.LibraryManagementSystem)
    (member_id : Nat) (now : Int) : Bool :=
  match find? member_id lib.members with
  | none => false
  | some member => !(member.membership_expiry_date < now)

/-- The updated system's `pay_membership_fee`:
`membership_expiry_date = now + 365 days`, `last_fee_payment_date = now`. -/
def pay_membership_fee (lib : Updated.LibraryManagementSystem)
    (member_id : Nat) (now : Int) :
    Updated.LibraryManagementSystem × Bool :=
  match find? member_id lib.members with
  | none => (lib, false)
  | some member =>
    let member2 : Updated.Member :=
      { member with membership_expiry_date := now + 365 * daySecs
                    last_fee_payment_date := now }
    ({ lib with members := setk member_id member2 lib.members }, true)

end Updated

/-- States reachable from the freshly initialised system by the spec's
engine operations (sections 4.1 and 4.2): `add_book`, `register_member`,
`delete_book`, `borrow_book`, `return_book`.  The generic attribute
setters `update_book`/`update_member` are the source-organisation
artifact the spec explicitly replaces (section 9) and are treated
separately, in claim C9; the read-only queries never mutate. -/
inductive EngineReachable : LibraryManagementSystem → Prop where
  | init : EngineReachable initLibrary
  | add_book (lib : LibraryManagementSystem) (ti au isb ge : String) (c : Nat) :
      EngineReachable lib → EngineReachable (add_book lib ti au isb ge c).1
  | register_member (lib : LibraryManagementSystem) (na em ph : String) (now : Int) :
      EngineReachable lib → EngineReachable (register_member lib na em ph now).1
  | delete_book (lib : LibraryManagementSystem) (book_id : Nat) :
      EngineReachable lib → EngineReachable (delete_book lib book_id).1
  | borrow_book (lib : LibraryManagementSystem) (member_id book_id : Nat) (now : Int) :
      EngineReachable lib → EngineReachable (borrow_book lib member_id book_id now).1
  | return_book (lib lib' : LibraryManagementSystem) (transaction_id : Nat)
      (now : Int) (r : ReturnResult) :
      EngineReachable lib → return_book lib transaction_id now = some (lib', r) →
      EngineReachable lib'

/-- The store invariant maintained by every engine operation. -/
structure Inv (lib : LibraryManagementSystem) : Prop where
  books_nodup : NodupKeys lib.books
  members_nodup : NodupKeys lib.members
  tx_nodup : NodupKeys lib.transactions
  books_lt : ∀ p ∈ lib.books, p.1 < lib.book_counter
  members_lt : ∀ p ∈ lib.members, p.1 < lib.member_counter
  tx_lt : ∀ p ∈ lib.transactions, p.1 < lib.transaction_counter
  tx_book_lt : ∀ p ∈ lib.transactions, p.2.book_id < lib.book_counter
  tx_member_lt : ∀ p ∈ lib.transactions, p.2.member_id < lib.member_counter
  copies : ∀ p ∈ lib.books,
    p.2.available_copies + openTxFor p.1 lib.transactions = p.2.total_copies
  avail_flag : ∀ p ∈ lib.books,
    p.2.is_available = (p.2.total_copies == 0 || decide (0 < p.2.available_copies))
  member_borrowed : ∀ p ∈ lib.members, ∀ tid : Nat,
    tid ∈ p.2.borrowed_books ↔
      ∃ t, find? tid lib.transactions = some t ∧ t.member_id = p.1 ∧ t.return_date = none
  borrowed_nodup : ∀ p ∈ lib.members, p.2.borrowed_books.Nodup
  borrowed_le : ∀ p ∈ lib.members, p.2.borrowed_books.length ≤ 3
  open_book : ∀ p ∈ lib.transactions, p.2.return_date = none →
    (find? p.2.book_id lib.books).isSome
  open_member : ∀ p ∈ lib.transactions, p.2.return_date = none →
    (find? p.2.member_id lib.members).isSome

/-- An empty library with one book of two copies. -/
def L1 : LibraryManagementSystem := (add_book initLibrary "T" "A" "I" "G" 2).1

/-- State `L1` plus one registered member. -/
def L2 : LibraryManagementSystem := (register_member L1 "N" "E" "P" 0).1

/-- State `L2` after the member borrowed the book at time 0 (transaction
`T10000`, due at day 14). -/
def L3 : LibraryManagementSystem := (borrow_book L2 100 1000 0).1

/-- The book `B1000` as it stands in `L3`. -/
def bkL3 : Book :=
  { title := "T", author := "A", isbn := "I", genre := "G"
    total_copies := 2, available_copies := 1, is_available := true }

/-- The member `M100` as it stands in `L3`. -/
def memL3 : Member :=
  { name := "N", email := "E", phone := "P", borrowed_books := [10000]
    membership_date := 0, is_active := true }

/-- A small store with an inactive member and an available book. -/
def libC2 : LibraryManagementSystem :=
  { books := [(1, { title := "B", author := "A", isbn := "I", genre := "G"
                    total_copies := 1, available_copies := 1, is_available := true })]
    members := [(2, { name := "N", email := "E", phone := "P", borrowed_books := []
                      membership_date := 0, is_active := false })]
    transactions := [], transaction_stack := []
    book_counter := 10, member_counter := 10, transaction_counter := 10 }

/-- The book stored under id 5 in `libC9`. -/
def bkC9 : Book :=
  { title := "B", author := "A", isbn := "I", genre := "G"
    total_copies := 4, available_copies := 2, is_available := true }

/-- A small store exercising the generic update operations. -/
def libC9 : LibraryManagementSystem :=
  { books := [(5, bkC9)]
    members := [(6, { name := "N", email := "E", phone := "P", borrowed_books := [77]
                      membership_date := 0, is_active := true })]
    transactions := [], transaction_stack := []
    book_counter := 10, member_counter := 10, transaction_counter := 10 }

/-- A member of the updated (membership-fee) system. -/
def memLU : Updated.Member :=
  { name := "N", email := "E", phone := "P", borrowed_books := []
    membership_date := 0, is_active := true, annual_membership_fee := 50
    membership_expiry_date := 123, last_fee_payment_date := 0 }

/-- An updated-system store with one member whose expiry is in the past. -/
def LU : Updated.LibraryManagementSystem :=
  { books := [], transactions := [], members := [(7, memLU)] }

/-- Precondition 1 of `borrow`: the member id is known. -/
def preMemberExists (lib : LibraryManagementSystem) (member_id : Nat) : Bool :=
  (find? member_id lib.members).isSome

/-- Precondition 2 of `borrow`: the book id is known. -/
def preBookExists (lib : LibraryManagementSystem) (book_id : Nat) : Bool :=
  (find? book_id lib.books).isSome

/-- Precondition 3 of `borrow`: the member is active (vacuously true when
the member does not exist, so that exactly-one-violation is
well-defined). -/
def preMemberActive (lib : LibraryManagementSystem) (member_id : Nat) : Bool :=
  match find? member_id lib.members with
  | some member => member.is_active
  | none => true

/-- Precondition 4 of `borrow`: a copy is available. -/
def preBookAvailable (lib : LibraryManagementSystem) (book_id : Nat) : Bool :=
  match find? book_id lib.books with
  | some book => decide (0 < book.available_copies)
  | none => true

/-- Precondition 5 of `borrow`: the member is under the borrow limit. -/
def preUnderBorrowLimit (lib : LibraryManagementSystem) (member_id : Nat) : Bool :=
  match find? member_id lib.members with
  | some member => decide (member.borrowed_books.length < 3)
  | none => true

/-- Keyword arguments of `update_book` that write one of the
copy-accounting fields. -/
def BookKwarg.touchesCopies : BookKwarg → Bool
  | .total_copies _ => true
  | .available_copies _ => true
  | .is_available _ => true
  | _ => false

/-- Keyword arguments of `update_member` that write `borrowed_books`. -/
def MemberKwarg.touchesBorrowed : MemberKwarg → Bool
  | .borrowed_books _ => true
  | _ => false

@[simp] theorem find?_nil {α : Type} (k : Nat) : find? k ([] : Map α) = none := rfl

theorem find?_cons {α : Type} (k k2 : Nat) (v : α) (m : Map α) :
    find? k ((k2, v) :: m) = if k2 = k then some v else find? k m := rfl

@[simp] theorem find?_cons_self {α : Type} (k : Nat) (v : α) (m : Map α) :
    find? k ((k, v) :: m) = some v := by simp [find?]

theorem find?_cons_ne {α : Type} {k k2 : Nat} (v : α) (m : Map α) (h : k2 ≠ k) :
    find? k ((k2, v) :: m) = find? k m := by simp [find?, h]

theorem mem_of_find? {α : Type} {k : Nat} {v : α} :
    ∀ {m : Map α}, find? k m = some v → (k, v) ∈ m
  | [], h => by simp [find?] at h
  | (k2, v2) :: m, h => by
    by_cases hk : k2 = k
    · subst hk
      simp [find?] at h
      subst h
      exact List.mem_cons_self _ _
    · rw [find?_cons_ne _ _ hk] at h
      exact List.mem_cons_of_mem _ (mem_of_find? h)

theorem mem_keys_of_find? {α : Type} {k : Nat} {v : α} {m : Map α}
    (h : find? k m = some v) : k ∈ keys m :=
  List.mem_map.mpr ⟨(k, v), mem_of_find? h, rfl⟩

theorem find?_eq_none_of_forall {α : Type} {k : Nat} :
    ∀ {m : Map α}, (∀ p ∈ m, p.1 ≠ k) → find? k m = none
  | [], _ => rfl
  | (k2, v2) :: m, h => by
    have hk2 : k2 ≠ k := h (k2, v2) (List.mem_cons_self _ _)
    rw [find?_cons_ne _ _ hk2]
    exact find?_eq_none_of_forall fun p hp => h p (List.mem_cons_of_mem _ hp)

theorem isSome_find?_of_mem_keys {α : Type} {k : Nat} :
    ∀ {m : Map α}, k ∈ keys m → (find? k m).isSome
  | [], h => by simp [keys] at h
  | (k2, v2) :: m, h => by
    by_cases hk : k2 = k
    · subst hk; simp
    · rw [find?_cons_ne _ _ hk]
      refine isSome_find?_of_mem_keys (?_ : k ∈ keys m)
      simp only [keys, List.map_cons, List.mem_cons] at h
      rcases h with h | h
      · exact absurd h.symm hk
      · exact h

theorem mem_keys_of_isSome {α : Type} {k : Nat} {m : Map α}
    (h : (find? k m).isSome) : k ∈ keys m := by
  rcases Option.isSome_iff_exists.mp h with ⟨v, hv⟩
  exact mem_keys_of_find? hv

/-- With no duplicate keys, a pair is in the list iff lookup finds it. -/
theorem mem_iff_find? {α : Type} {k : Nat} {v : α} :
    ∀ {m : Map α}, NodupKeys m → ((k, v) ∈ m ↔ find? k m = some v)
  | [], _ => by simp [find?]
  | (k2, v2) :: m, h => by
    have hnd : NodupKeys m := (List.nodup_cons.mp h).2
    have hk2 : k2 ∉ keys m := (List.nodup_cons.mp h).1
    by_cases hk : k2 = k
    · subst hk
      simp only [find?_cons_self, List.mem_cons, Option.some_inj]
      constructor
      · rintro (h | h)
        · exact (((Prod.mk.injEq _ _ _ _).mp h).2).symm
        · exact absurd (List.mem_map.mpr ⟨(k2, v), h, rfl⟩) hk2
      · rintro rfl; exact Or.inl rfl
    · rw [find?_cons_ne _ _ hk, List.mem_cons]
      rw [mem_iff_find? hnd]
      constructor
      · rintro (h | h)
        · exact absurd (congrArg Prod.fst h).symm hk
        · exact h
      · exact Or.inr

@[simp] theorem keys_setk {α : Type} (k : Nat) (v : α) :
    ∀ (m : Map α), keys (setk k v m) = keys m
  | [] => rfl
  | (k2, v2) :: m => by
    have ih := keys_setk k v m
    by_cases hk : k2 = k
    · simp [setk, hk, keys]
    · simp only [setk, if_neg hk, keys, List.map_cons] at ih ⊢
      rw [ih]

theorem nodupKeys_setk {α : Type} {m : Map α} (k : Nat) (v : α)
    (h : NodupKeys m) : NodupKeys (setk k v m) := by
  unfold NodupKeys
  rw [keys_setk]
  exact h

theorem find?_setk_self {α : Type} {k : Nat} {v : α} (v2 : α) :
    ∀ {m : Map α}, find? k m = some v → find? k (setk k v2 m) = some v2
  | [], h => by simp [find?] at h
  | (k2, w) :: m, h => by
    by_cases hk : k2 = k
    · subst hk
      simp [setk]
    · rw [find?_cons_ne _ _ hk] at h
      simp only [setk, if_neg hk]
      rw [find?_cons_ne _ _ hk]
      exact find?_setk_self v2 h

theorem find?_setk_ne {α : Type} {k k2 : Nat} (v : α) (h : k2 ≠ k) :
    ∀ (m : Map α), find? k (setk k2 v m) = find? k m
  | [] => rfl
  | (k3, w) :: m => by
    simp only [setk]
    by_cases hk3 : k3 = k2
    · rw [if_pos hk3]
      have hk3k : k3 ≠ k := by rw [hk3]; exact h
      rw [find?_cons_ne _ _ hk3k, find?_cons_ne _ _ hk3k]
    · rw [if_neg hk3]
      by_cases hk : k3 = k
      · subst hk; simp
      · rw [find?_cons_ne _ _ hk, find?_cons_ne _ _ hk]
        exact find?_setk_ne v h m

/-- Membership after an update, when keys are unique. -/
theorem mem_setk {α : Type} {p : Nat × α} {k : Nat} {v : α} :
    ∀ {m : Map α}, NodupKeys m → p ∈ setk k v m →
      p = (k, v) ∨ (p ∈ m ∧ p.1 ≠ k)
  | [], _, h => by simp [setk] at h
  | (k2, w) :: m, hnd, h => by
    have hnd2 : NodupKeys m := (List.nodup_cons.mp hnd).2
    have hk2 : k2 ∉ keys m := (List.nodup_cons.mp hnd).1
    simp only [setk] at h
    by_cases hk : k2 = k
    · rw [if_pos hk] at h
      rcases List.mem_cons.mp h with h1 | h1
      · exact Or.inl (h1.trans (by rw [hk]))
      · refine Or.inr ⟨List.mem_cons_of_mem _ h1, ?_⟩
        intro hpk
        rw [← hk] at hpk
        exact hk2 (hpk ▸ List.mem_map.mpr ⟨p, h1, rfl⟩)
    · rw [if_neg hk] at h
      rcases List.mem_cons.mp h with h1 | h1
      · refine Or.inr ⟨h1 ▸ List.mem_cons_self _ _, ?_⟩
        rw [h1]
        exact hk
      · rcases mem_setk hnd2 h1 with h2 | ⟨hm, hne⟩
        · exact Or.inl h2
        · exact Or.inr ⟨List.mem_cons_of_mem _ hm, hne⟩

theorem mem_delk {α : Type} {p : Nat × α} {k : Nat} :
    ∀ {m : Map α}, p ∈ delk k m → p ∈ m
  | [], h => by simp [delk] at h
  | (k2, w) :: m, h => by
    by_cases hk : k2 = k
    · simp only [delk, if_pos hk] at h
      exact List.mem_cons_of_mem _ h
    · simp only [delk, if_neg hk, List.mem_cons] at h
      rcases h with h | h
      · exact h ▸ List.mem_cons_self _ _
      · exact List.mem_cons_of_mem _ (mem_delk h)

theorem delk_sublist {α : Type} (k : Nat) :
    ∀ (m : Map α), List.Sublist (delk k m) m
  | [] => List.Sublist.refl _
  | (k2, w) :: m => by
    simp only [delk]
    by_cases hk : k2 = k
    · rw [if_pos hk]
      exact List.sublist_cons_self _ _
    · rw [if_neg hk]
      exact List.Sublist.cons₂ _ (delk_sublist k m)

theorem nodupKeys_delk {α : Type} {m : Map α} (k : Nat)
    (h : NodupKeys m) : NodupKeys (delk k m) :=
  List.Nodup.sublist ((delk_sublist k m).map Prod.fst) h

theorem find?_delk_ne {α : Type} {k k2 : Nat} (h : k2 ≠ k) :
    ∀ (m : Map α), find? k (delk k2 m) = find? k m
  | [] => rfl
  | (k3, w) :: m => by
    simp only [delk]
    by_cases hk3 : k3 = k2
    · rw [if_pos hk3]
      have hk3k : k3 ≠ k := by rw [hk3]; exact h
      rw [find?_cons_ne _ _ hk3k]
    · rw [if_neg hk3]
      by_cases hk : k3 = k
      · subst hk; simp
      · rw [find?_cons_ne _ _ hk, find?_cons_ne _ _ hk]
        exact find?_delk_ne h m

theorem find?_delk_self {α : Type} {k : Nat} :
    ∀ {m : Map α}, NodupKeys m → find? k (delk k m) = none
  | [], _ => rfl
  | (k2, w) :: m, hnd => by
    have hnd2 : NodupKeys m := (List.nodup_cons.mp hnd).2
    have hk2 : k2 ∉ keys m := (List.nodup_cons.mp hnd).1
    simp only [delk]
    by_cases hk : k2 = k
    · rw [if_pos hk]
      subst hk
      exact find?_eq_none_of_forall fun p hp hpk =>
        hk2 (hpk ▸ List.mem_map.mpr ⟨p, hp, rfl⟩)
    · rw [if_neg hk]
      rw [find?_cons_ne _ _ hk]
      exact find?_delk_self hnd2

/-- Updating an existing key shifts a `countP` by the predicate's value at
the old and new entries. -/
theorem countP_setk {α : Type} {k : Nat} {v : α} (v2 : α) (p : Nat × α → Bool) :
    ∀ {m : Map α}, find? k m = some v →
      (setk k v2 m).countP p + (if p (k, v) then 1 else 0) =
        m.countP p + (if p (k, v2) then 1 else 0)
  | [], h => by simp [find?] at h
  | (k2, w) :: m, h => by
    simp only [setk]
    by_cases hk : k2 = k
    · rw [if_pos hk]
      subst hk
      simp only [find?_cons_self, Option.some_inj] at h
      subst h
      simp only [List.countP_cons]
      omega
    · rw [if_neg hk]
      rw [find?_cons_ne _ _ hk] at h
      simp only [List.countP_cons]
      have ih := countP_setk v2 p h
      omega

/-- Counting matching entries in a nodup-keyed map equals the length of
any nodup list of ids characterising exactly the matching keys. -/
theorem countP_eq_length_of_mem_iff {α : Type} {m : Map α} {p : Nat × α → Bool}
    {ids : List Nat} (hnd : NodupKeys m) (hids : ids.Nodup)
    (hiff : ∀ k, k ∈ ids ↔ ∃ v, find? k m = some v ∧ p (k, v) = true) :
    m.countP p = ids.length := by
  rw [List.countP_eq_length_filter]
  have hfsub : List.Sublist (m.filter p) m := List.filter_sublist m
  have hknd : (keys (m.filter p)).Nodup :=
    List.Nodup.sublist (hfsub.map Prod.fst) hnd
  have hmem : ∀ k, k ∈ keys (m.filter p) ↔ k ∈ ids := by
    intro k
    rw [hiff k]
    constructor
    · intro hk
      rcases List.mem_map.mp hk with ⟨q, hq, hqk⟩
      rcases q with ⟨k1, v⟩
      rcases List.mem_filter.mp hq with ⟨hqm, hqp⟩
      subst hqk
      exact ⟨v, (mem_iff_find? hnd).mp hqm, hqp⟩
    · rintro ⟨v, hv, hp⟩
      exact List.mem_map.mpr ⟨(k, v),
        List.mem_filter.mpr ⟨(mem_iff_find? hnd).mpr hv, hp⟩, rfl⟩
  have hperm : List.Perm (keys (m.filter p)) ids :=
    (List.perm_ext_iff_of_nodup hknd hids).mpr hmem
  have hlen := hperm.length_eq
  simpa [keys] using hlen

/-- Consing a fresh key keeps the keys unique. -/
theorem nodupKeys_cons {α : Type} {m : Map α} {k : Nat} {v : α}
    (hk : ∀ p ∈ m, p.1 ≠ k) (h : NodupKeys m) : NodupKeys ((k, v) :: m) := by
  refine List.nodup_cons.mpr ⟨?_, h⟩
  intro hmem
  rcases List.mem_map.mp hmem with ⟨q, hq, hqk⟩
  exact hk q hq hqk

/-- Unfolding the open-transaction count over a newly recorded
transaction. -/
theorem openTxFor_cons (book_id tid : Nat) (t : Transaction) (ts : Map Transaction) :
    openTxFor book_id ((tid, t) :: ts) =
      openTxFor book_id ts +
        (if t.book_id == book_id && t.return_date.isNone then 1 else 0) := by
  simp only [openTxFor, List.countP_cons]

/-- No transaction can be open for a book id no transaction mentions. -/
theorem openTxFor_eq_zero_of_fresh {ts : Map Transaction} {c : Nat}
    (h : ∀ p ∈ ts, p.2.book_id < c) : openTxFor c ts = 0 := by
  refine List.countP_eq_zero.mpr ?_
  intro p hp hcontra
  have hne : p.2.book_id ≠ c := Nat.ne_of_lt (h p hp)
  simp only [Bool.and_eq_true, beq_iff_eq] at hcontra
  exact hne hcontra.1

/-- No transaction can be open for a member id no transaction mentions. -/
theorem openTxForMember_eq_zero_of_fresh {ts : Map Transaction} {c : Nat}
    (h : ∀ p ∈ ts, p.2.member_id < c) : openTxForMember c ts = 0 := by
  refine List.countP_eq_zero.mpr ?_
  intro p hp hcontra
  have hne : p.2.member_id ≠ c := Nat.ne_of_lt (h p hp)
  simp only [Bool.and_eq_true, beq_iff_eq] at hcontra
  exact hne hcontra.1

/-- The invariant holds in the initial state. -/
theorem inv_init : Inv initLibrary := by
  constructor <;> simp [initLibrary, NodupKeys, keys]

/-- Operation `add_book` preserves the invariant: the new id is fresh, so
no transaction refers to the new book. -/
theorem inv_add_book (lib : LibraryManagementSystem) (ti au isb ge : String)
    (c : Nat) (h : Inv lib) : Inv (add_book lib ti au isb ge c).1 := by
  simp only [add_book]
  have hfresh : ∀ p ∈ lib.books, p.1 ≠ lib.book_counter :=
    fun p hp => Nat.ne_of_lt (h.books_lt p hp)
  constructor
  case books_nodup => exact nodupKeys_cons hfresh h.books_nodup
  case members_nodup => exact h.members_nodup
  case tx_nodup => exact h.tx_nodup
  case books_lt =>
    rintro p hp
    rcases List.mem_cons.mp hp with rfl | hp
    · exact Nat.lt_succ_self _
    · exact Nat.lt_succ_of_lt (h.books_lt p hp)
  case members_lt => exact h.members_lt
  case tx_lt => exact h.tx_lt
  case tx_book_lt =>
    exact fun p hp => Nat.lt_succ_of_lt (h.tx_book_lt p hp)
  case tx_member_lt => exact h.tx_member_lt
  case copies =>
    rintro p hp
    rcases List.mem_cons.mp hp with rfl | hp
    · rw [openTxFor_eq_zero_of_fresh h.tx_book_lt]
      rfl
    · exact h.copies p hp
  case avail_flag =>
    rintro p hp
    rcases List.mem_cons.mp hp with rfl | hp
    · by_cases hc : c = 0
      · subst hc; rfl
      · simp only
        rw [Bool.eq_iff_iff]
        simp [Nat.pos_of_ne_zero hc]
    · exact h.avail_flag p hp
  case member_borrowed => exact h.member_borrowed
  case borrowed_nodup => exact h.borrowed_nodup
  case borrowed_le => exact h.borrowed_le
  case open_book =>
    intro p hp hopen
    have := h.open_book p hp hopen
    rcases Option.isSome_iff_exists.mp this with ⟨v, hv⟩
    by_cases hk : lib.book_counter = p.2.book_id
    · simp [find?, hk]
    · rw [find?_cons_ne _ _ hk]
      exact this
  case open_member => exact h.open_member

/-- Operation `register_member` preserves the invariant: the new member
starts with an empty borrowed list, and no transaction can refer to the
fresh id. -/
theorem inv_register_member (lib : LibraryManagementSystem)
    (na em ph : String) (now : Int) (h : Inv lib) :
    Inv (register_member lib na em ph now).1 := by
  simp only [register_member]
  have hfresh : ∀ p ∈ lib.members, p.1 ≠ lib.member_counter :=
    fun p hp => Nat.ne_of_lt (h.members_lt p hp)
  constructor
  case books_nodup => exact h.books_nodup
  case members_nodup => exact nodupKeys_cons hfresh h.members_nodup
  case tx_nodup => exact h.tx_nodup
  case books_lt => exact h.books_lt
  case members_lt =>
    rintro p hp
    rcases List.mem_cons.mp hp with rfl | hp
    · exact Nat.lt_succ_self _
    · exact Nat.lt_succ_of_lt (h.members_lt p hp)
  case tx_lt => exact h.tx_lt
  case tx_book_lt => exact h.tx_book_lt
  case tx_member_lt =>
    exact fun p hp => Nat.lt_succ_of_lt (h.tx_member_lt p hp)
  case copies => exact h.copies
  case avail_flag => exact h.avail_flag
  case member_borrowed =>
    rintro p hp tid
    rcases List.mem_cons.mp hp with rfl | hp
    · simp only [List.not_mem_nil, false_iff]
      rintro ⟨t, ht, htm, hto⟩
      exact absurd (htm ▸ h.tx_member_lt (tid, t) (mem_of_find? ht))
        (lt_irrefl _)
    · exact h.member_borrowed p hp tid
  case borrowed_nodup =>
    rintro p hp
    rcases List.mem_cons.mp hp with rfl | hp
    · exact List.nodup_nil
    · exact h.borrowed_nodup p hp
  case borrowed_le =>
    rintro p hp
    rcases List.mem_cons.mp hp with rfl | hp
    · simp
    · exact h.borrowed_le p hp
  case open_book => exact h.open_book
  case open_member =>
    intro p hp hopen
    have := h.open_member p hp hopen
    by_cases hk : lib.member_counter = p.2.member_id
    · simp [find?, hk]
    · rw [find?_cons_ne _ _ hk]
      exact this

/-- Operation `delete_book` preserves the invariant: the deletion only
happens when the book has no open transaction, so open-transaction
references stay intact. -/
theorem inv_delete_book (lib : LibraryManagementSystem) (book_id : Nat)
    (h : Inv lib) : Inv (delete_book lib book_id).1 := by
  unfold delete_book
  cases hfind : find? book_id lib.books with
  | none => exact h
  | some bk =>
    by_cases hopen : 0 < openTxFor book_id lib.transactions
    · simp only [if_pos hopen]
      exact h
    · simp only [if_neg hopen]
      have hzero : openTxFor book_id lib.transactions = 0 := Nat.eq_zero_of_not_pos hopen
      have hnot : ∀ p ∈ lib.transactions, p.2.return_date = none → p.2.book_id ≠ book_id := by
        intro p hp hret heq
        have := List.countP_eq_zero.mp hzero p hp
        simp only [Bool.and_eq_true, beq_iff_eq, Option.isNone_iff_eq_none] at this
        exact this ⟨heq, hret⟩
      refine ⟨nodupKeys_delk _ h.books_nodup, h.members_nodup, h.tx_nodup,
        fun p hp => h.books_lt p (mem_delk hp), h.members_lt, h.tx_lt,
        h.tx_book_lt, h.tx_member_lt,
        fun p hp => h.copies p (mem_delk hp),
        fun p hp => h.avail_flag p (mem_delk hp),
        h.member_borrowed, h.borrowed_nodup, h.borrowed_le, ?_, h.open_member⟩
      intro p hp hret
      dsimp only at hp ⊢
      rw [find?_delk_ne (Ne.symm (hnot p hp hret))]
      exact h.open_book p hp hret

/-- Updating a value never removes a key. -/
theorem isSome_find?_setk {α : Type} {k : Nat} {m : Map α} (k2 : Nat) (v : α)
    (h : (find? k m).isSome) : (find? k (setk k2 v m)).isSome := by
  have hk := mem_keys_of_isSome h
  refine isSome_find?_of_mem_keys ?_
  rw [keys_setk]
  exact hk

/-- Operation `borrow_book` preserves the invariant: the failure branches
do not touch the store, and the success branch decrements the book's
copies while recording exactly one new open transaction for it,
appending the fresh transaction id to the borrowing member's list. -/
theorem inv_borrow_book (lib : LibraryManagementSystem)
    (member_id book_id : Nat) (now : Int) (h : Inv lib) :
    Inv (borrow_book lib member_id book_id now).1 := by
  unfold borrow_book
  cases hm : find? member_id lib.members with
  | none => exact h
  | some member =>
    cases hb : find? book_id lib.books with
    | none => exact h
    | some book =>
      dsimp only
      split
      · exact h
      split
      · exact h
      split
      · exact h
      rename_i hact havail hlim
      have hact' : member.is_active = true := by
        simpa using hact
      have havail' : 0 < book.available_copies := Nat.lt_of_not_le havail
      have hlim' : member.borrowed_books.length < 3 := Nat.lt_of_not_le hlim
      have hmmem : (member_id, member) ∈ lib.members := mem_of_find? hm
      have hbmem : (book_id, book) ∈ lib.books := mem_of_find? hb
      have hmlt : member_id < lib.member_counter := h.members_lt _ hmmem
      have hblt : book_id < lib.book_counter := h.books_lt _ hbmem
      have htfresh : ∀ p ∈ lib.transactions, p.1 ≠ lib.transaction_counter :=
        fun p hp => Nat.ne_of_lt (h.tx_lt p hp)
      have htnone : find? lib.transaction_counter lib.transactions = none :=
        find?_eq_none_of_forall htfresh
      have hcopies := h.copies _ hbmem
      dsimp only at hcopies
      constructor
      case books_nodup => exact nodupKeys_setk _ _ h.books_nodup
      case members_nodup => exact nodupKeys_setk _ _ h.members_nodup
      case tx_nodup => exact nodupKeys_cons htfresh h.tx_nodup
      case books_lt =>
        intro p hp
        rcases mem_setk h.books_nodup hp with rfl | ⟨hp, hne⟩
        · exact hblt
        · exact h.books_lt p hp
      case members_lt =>
        intro p hp
        rcases mem_setk h.members_nodup hp with rfl | ⟨hp, hne⟩
        · exact hmlt
        · exact h.members_lt p hp
      case tx_lt =>
        intro p hp
        rcases List.mem_cons.mp hp with rfl | hp
        · exact Nat.lt_succ_self _
        · exact Nat.lt_succ_of_lt (h.tx_lt p hp)
      case tx_book_lt =>
        intro p hp
        rcases List.mem_cons.mp hp with rfl | hp
        · exact hblt
        · exact h.tx_book_lt p hp
      case tx_member_lt =>
        intro p hp
        rcases List.mem_cons.mp hp with rfl | hp
        · exact hmlt
        · exact h.tx_member_lt p hp
      case copies =>
        intro p hp
        rcases mem_setk h.books_nodup hp with rfl | ⟨hp, hne⟩
        · dsimp only
          rw [openTxFor_cons]
          simp only [beq_self_eq_true, Option.isNone_none, Bool.and_self, if_pos]
          omega
        · dsimp only
          rw [openTxFor_cons]
          have hne2 : (book_id == p.1) = false :=
            beq_eq_false_iff_ne.mpr fun heq => hne heq.symm
          simp only [hne2, Bool.false_and, Bool.false_eq_true, if_false, Nat.add_zero]
          exact h.copies p hp
      case avail_flag =>
        intro p hp
        rcases mem_setk h.books_nodup hp with rfl | ⟨hp, hne⟩
        · have hflag := h.avail_flag _ hbmem
          dsimp only at hflag ⊢
          by_cases hz : book.available_copies - 1 = 0
          · rw [if_pos hz]
            have htot : book.total_copies ≠ 0 := by omega
            rw [Bool.eq_iff_iff]
            simp [htot]
            omega
          · rw [if_neg hz]
            rw [hflag]
            rw [Bool.eq_iff_iff]
            simp
            omega
        · exact h.avail_flag p hp
      case member_borrowed =>
        intro p hp tid
        rcases mem_setk h.members_nodup hp with rfl | ⟨hp, hne⟩
        · dsimp only
          by_cases htid : tid = lib.transaction_counter
          · subst htid
            simp only [List.mem_append, List.mem_singleton, or_true, true_iff]
            refine ⟨_, find?_cons_self _ _ _, rfl, rfl⟩
          · have hne2 : lib.transaction_counter ≠ tid := fun heq => htid heq.symm
            rw [find?_cons_ne _ _ hne2]
            have hold := h.member_borrowed _ hmmem tid
            dsimp only at hold
            simp only [List.mem_append, List.mem_singleton, htid, or_false]
            exact hold
        · by_cases htid : tid = lib.transaction_counter
          · subst htid
            constructor
            · intro hmem2
              rcases (h.member_borrowed p hp _).mp hmem2 with ⟨t', ht', _, _⟩
              rw [htnone] at ht'
              exact absurd ht' (by simp)
            · rintro ⟨t', ht', htm', hto'⟩
              rw [find?_cons_self] at ht'
              injection ht' with ht'
              rw [← ht'] at htm'
              exact absurd htm'.symm hne
          · have hne2 : lib.transaction_counter ≠ tid := fun heq => htid heq.symm
            rw [find?_cons_ne _ _ hne2]
            exact h.member_borrowed p hp tid
      case borrowed_nodup =>
        intro p hp
        rcases mem_setk h.members_nodup hp with rfl | ⟨hp, hne⟩
        · dsimp only
          refine List.Nodup.append (h.borrowed_nodup _ hmmem) (List.nodup_singleton _) ?_
          intro a ha ha2
          rw [List.mem_singleton] at ha2
          subst ha2
          rcases (h.member_borrowed _ hmmem _).mp ha with ⟨t', ht', _, _⟩
          rw [htnone] at ht'
          exact absurd ht' (by simp)
        · exact h.borrowed_nodup p hp
      case borrowed_le =>
        intro p hp
        rcases mem_setk h.members_nodup hp with rfl | ⟨hp, hne⟩
        · dsimp only
          rw [List.length_append, List.length_singleton]
          omega
        · exact h.borrowed_le p hp
      case open_book =>
        intro p hp hopen
        rcases List.mem_cons.mp hp with rfl | hp
        · dsimp only
          rw [find?_setk_self _ hb]
          rfl
        · exact isSome_find?_setk _ _ (h.open_book p hp hopen)
      case open_member =>
        intro p hp hopen
        rcases List.mem_cons.mp hp with rfl | hp
        · dsimp only
          rw [find?_setk_self _ hm]
          rfl
        · exact isSome_find?_setk _ _ (h.open_member p hp hopen)

/-- Operation `return_book` preserves the invariant: its two failure
results leave the store untouched, and the success branch closes exactly
one open transaction while incrementing that book's copies and removing
the id from that member's list. -/
theorem inv_return_book (lib lib' : LibraryManagementSystem)
    (transaction_id : Nat) (now : Int) (r : ReturnResult) (h : Inv lib)
    (hcall : return_book lib transaction_id now = some (lib', r)) :
    Inv lib' := by
  unfold return_book at hcall
  cases hfind : find? transaction_id lib.transactions with
  | none =>
    rw [hfind] at hcall
    simp only [Option.some.injEq, Prod.mk.injEq] at hcall
    rw [← hcall.1]
    exact h
  | some t =>
    rw [hfind] at hcall
    dsimp only at hcall
    by_cases hrd : t.return_date.isSome
    · rw [if_pos hrd] at hcall
      simp only [Option.some.injEq, Prod.mk.injEq] at hcall
      rw [← hcall.1]
      exact h
    · rw [if_neg hrd] at hcall
      have hopen : t.return_date = none := Option.not_isSome_iff_eq_none.mp hrd
      split at hcall
      · exact absurd hcall (by simp)
      rename_i book hbook
      split at hcall
      · exact absurd hcall (by simp)
      rename_i member hmem
      split at hcall
      swap
      · exact absurd hcall (by simp)
      rename_i hin
      simp only [Option.some.injEq, Prod.mk.injEq] at hcall
      obtain ⟨hlib, hr⟩ := hcall
      subst hlib
      have htmem : (transaction_id, t) ∈ lib.transactions := mem_of_find? hfind
      have hbmem : (t.book_id, book) ∈ lib.books := mem_of_find? hbook
      have hmmem : (t.member_id, member) ∈ lib.members := mem_of_find? hmem
      have hblt : t.book_id < lib.book_counter := h.tx_book_lt _ htmem
      have hmlt : t.member_id < lib.member_counter := h.tx_member_lt _ htmem
      have htlt : transaction_id < lib.transaction_counter := h.tx_lt _ htmem
      have nde := h.borrowed_nodup _ hmmem
      refine ⟨?_, ?_, ?_, ?_, ?_, ?_, ?_, ?_, ?_, ?_, ?_, ?_, ?_, ?_, ?_⟩
      next => exact nodupKeys_setk _ _ h.books_nodup
      next => exact nodupKeys_setk _ _ h.members_nodup
      next => exact nodupKeys_setk _ _ h.tx_nodup
      next =>
        intro p hp
        rcases mem_setk h.books_nodup hp with rfl | ⟨hp, hne⟩
        · exact hblt
        · exact h.books_lt p hp
      next =>
        intro p hp
        rcases mem_setk h.members_nodup hp with rfl | ⟨hp, hne⟩
        · exact hmlt
        · exact h.members_lt p hp
      next =>
        intro p hp
        rcases mem_setk h.tx_nodup hp with rfl | ⟨hp, hne⟩
        · exact htlt
        · exact h.tx_lt p hp
      next =>
        intro p hp
        rcases mem_setk h.tx_nodup hp with rfl | ⟨hp, hne⟩
        · exact hblt
        · exact h.tx_book_lt p hp
      next =>
        intro p hp
        rcases mem_setk h.tx_nodup hp with rfl | ⟨hp, hne⟩
        · exact hmlt
        · exact h.tx_member_lt p hp
      next =>
        intro p hp
        have hcnt := countP_setk
          (m := lib.transactions)
          ({ t with return_date := some now
                    fine := if t.due_date < now then (now - t.due_date).toNat / 86400 else t.fine })
          (fun q => q.2.book_id == p.1 && q.2.return_date.isNone) hfind
        rcases mem_setk h.books_nodup hp with rfl | ⟨hp, hne⟩
        · dsimp only at hcnt ⊢
          rw [hopen] at hcnt
          simp only [beq_self_eq_true, Option.isNone_none, Bool.and_self, if_pos,
            Option.isNone_some, Bool.and_false, Bool.false_eq_true, if_false,
            Nat.add_zero] at hcnt
          have hc := h.copies _ hbmem
          dsimp only at hc
          unfold openTxFor at hc ⊢
          omega
        · dsimp only at hcnt ⊢
          have hne2 : (t.book_id == p.1) = false :=
            beq_eq_false_iff_ne.mpr fun heq => hne heq.symm
          rw [hopen] at hcnt
          simp only [hne2, Bool.false_and, Bool.false_eq_true, if_false,
            Nat.add_zero] at hcnt
          unfold openTxFor
          rw [hcnt]
          exact h.copies p hp
      next =>
        intro p hp
        rcases mem_setk h.books_nodup hp with rfl | ⟨hp, hne⟩
        · dsimp only
          rw [Bool.eq_iff_iff]
          simp
        · exact h.avail_flag p hp
      next =>
        intro p hp tid2
        rcases mem_setk h.members_nodup hp with rfl | ⟨hp2, hne⟩
        · dsimp only
          by_cases htid2 : tid2 = transaction_id
          · subst htid2
            constructor
            · intro hmem2
              exact absurd rfl ((List.Nodup.mem_erase_iff nde).mp hmem2).1
            · rintro ⟨t', ht', htm', hto'⟩
              rw [find?_setk_self _ hfind] at ht'
              injection ht' with ht'
              rw [← ht'] at hto'
              exact absurd hto' (by simp)
          · rw [List.Nodup.mem_erase_iff nde]
            rw [find?_setk_ne _ (fun heq => htid2 heq.symm)]
            have hold := h.member_borrowed _ hmmem tid2
            dsimp only at hold
            rw [hold]
            simp [htid2]
        · by_cases htid2 : tid2 = transaction_id
          · subst htid2
            constructor
            · intro hmem2
              rcases (h.member_borrowed p hp2 _).mp hmem2 with ⟨t', ht', htm', hto'⟩
              rw [hfind] at ht'
              injection ht' with ht'
              rw [← ht'] at htm'
              exact absurd htm'.symm hne
            · rintro ⟨t', ht', htm', hto'⟩
              rw [find?_setk_self _ hfind] at ht'
              injection ht' with ht'
              rw [← ht'] at hto'
              exact absurd hto' (by simp)
          · rw [find?_setk_ne _ (fun heq => htid2 heq.symm)]
            exact h.member_borrowed p hp2 tid2
      next =>
        intro p hp
        rcases mem_setk h.members_nodup hp with rfl | ⟨hp, hne⟩
        · exact List.Nodup.erase _ nde
        · exact h.borrowed_nodup p hp
      next =>
        intro p hp
        rcases mem_setk h.members_nodup hp with rfl | ⟨hp, hne⟩
        · dsimp only
          exact le_trans (List.erase_sublist _ _).length_le (h.borrowed_le _ hmmem)
        · exact h.borrowed_le p hp
      next =>
        intro p hp hopen2
        rcases mem_setk h.tx_nodup hp with rfl | ⟨hp, hne⟩
        · exact absurd hopen2 (by simp)
        · exact isSome_find?_setk _ _ (h.open_book p hp hopen2)
      next =>
        intro p hp hopen2
        rcases mem_setk h.tx_nodup hp with rfl | ⟨hp, hne⟩
        · exact absurd hopen2 (by simp)
        · exact isSome_find?_setk _ _ (h.open_member p hp hopen2)

/-- Every engine-reachable state satisfies the invariant. -/
theorem inv_of_reachable {lib : LibraryManagementSystem}
    (h : EngineReachable lib) : Inv lib := by
  induction h with
  | init => exact inv_init
  | add_book lib ti au isb ge c _ ih => exact inv_add_book lib ti au isb ge c ih
  | register_member lib na em ph now _ ih => exact inv_register_member lib na em ph now ih
  | delete_book lib bid _ ih => exact inv_delete_book lib bid ih
  | borrow_book lib mid bid now _ ih => exact inv_borrow_book lib mid bid now ih
  | return_book lib lib2 tid now r _ heq ih => exact inv_return_book lib lib2 tid now r ih heq

/-- In an invariant state a member's open-transaction count is exactly the
length of their `borrowed_books` list (the quantity the borrow-limit
check inspects). -/
theorem openTxForMember_eq_borrowed_length {lib : LibraryManagementSystem}
    (h : Inv lib) {member_id : Nat} {member : Member}
    (hm : find? member_id lib.members = some member) :
    openTxForMember member_id lib.transactions = member.borrowed_books.length := by
  unfold openTxForMember
  refine countP_eq_length_of_mem_iff h.tx_nodup
    (h.borrowed_nodup _ (mem_of_find? hm)) ?_
  intro tid
  have hmb := h.member_borrowed _ (mem_of_find? hm) tid
  dsimp only at hmb
  rw [hmb]
  constructor
  · rintro ⟨t, ht, htm, hto⟩
    refine ⟨t, ht, ?_⟩
    simp [htm, hto]
  · rintro ⟨t, ht, hp⟩
    simp only [Bool.and_eq_true, beq_iff_eq, Option.isNone_iff_eq_none] at hp
    exact ⟨t, ht, hp.1, hp.2⟩

/-- In an invariant state, `return_book` on an open transaction reaches
the success branch, and this is its exact effect. -/
theorem return_book_open_eq {lib : LibraryManagementSystem}
    {transaction_id : Nat} {t : Transaction} (h : Inv lib)
    (hfind : find? transaction_id lib.transactions = some t)
    (hopen : t.return_date = none) (now : Int) :
    ∃ book member,
      find? t.book_id lib.books = some book ∧
      find? t.member_id lib.members = some member ∧
      transaction_id ∈ member.borrowed_books ∧
      return_book lib transaction_id now =
        some ({ lib with
                transactions := setk transaction_id
                  ({ t with return_date := some now
                            fine := if t.due_date < now then (now - t.due_date).toNat / 86400 else t.fine })
                  lib.transactions
                books := setk t.book_id
                  ({ book with available_copies := book.available_copies + 1
                               is_available := true })
                  lib.books
                members := setk t.member_id
                  ({ member with borrowed_books := member.borrowed_books.erase transaction_id })
                  lib.members },
          .ok (if t.due_date < now then (now - t.due_date).toNat / 86400 else t.fine)) := by
  have hbookS := h.open_book _ (mem_of_find? hfind) hopen
  rcases Option.isSome_iff_exists.mp hbookS with ⟨book, hbook⟩
  have hmemS := h.open_member _ (mem_of_find? hfind) hopen
  rcases Option.isSome_iff_exists.mp hmemS with ⟨member, hmem⟩
  have hin : transaction_id ∈ member.borrowed_books :=
    (h.member_borrowed _ (mem_of_find? hmem) transaction_id).mpr ⟨t, hfind, rfl, hopen⟩
  refine ⟨book, member, hbook, hmem, hin, ?_⟩
  unfold return_book
  rw [hfind]
  dsimp only
  rw [hopen]
  simp only [Option.isSome_none, Bool.false_eq_true, if_false]
  rw [hbook]
  dsimp only
  rw [hmem]
  dsimp only
  rw [if_pos hin]

/-- The witness state `L3` is engine-reachable. -/
theorem reachable_L3 : EngineReachable L3 :=
  EngineReachable.borrow_book L2 100 1000 0
    (EngineReachable.register_member L1 "N" "E" "P" 0
      (EngineReachable.add_book initLibrary "T" "A" "I" "G" 2
        EngineReachable.init))

/-- C6: for every existing member, `pay_membership_fee` at time `now` sets
`membership_expiry_date` to exactly `now + 365` days and
`last_fee_payment_date` to `now`, regardless of the prior expiry value —
repeated payments always extend from `now`, with no accrual of unused
time — and it touches nothing else in the store. -/
theorem c6_pay_fee_resets_expiry (lib : Updated.LibraryManagementSystem)
    (member_id : Nat) (now : Int) (member : Updated.Member)
    (h : find? member_id lib.members = some member) :
    Updated.pay_membership_fee lib member_id now =
      ({ lib with
          members :=
            setk member_id
              ({ member with
                  membership_expiry_date := now + 365 * daySecs
                  last_fee_payment_date := now })
              lib.members },
        true) ∧
    find? member_id (Updated.pay_membership_fee lib member_id now).1.members =
      some ({ member with
              membership_expiry_date := now + 365 * daySecs
              last_fee_payment_date := now }) ∧
    (∀ k, k ≠ member_id →
      find? k (Updated.pay_membership_fee lib member_id now).1.members =
        find? k lib.members) ∧
    (Updated.pay_membership_fee lib member_id now).1.books = lib.books ∧
    (Updated.pay_membership_fee lib member_id now).1.transactions = lib.transactions := by
  unfold Updated.pay_membership_fee
  rw [h]
  dsimp only
  refine ⟨rfl, find?_setk_self _ h, ?_, rfl, rfl⟩
  intro k hk
  exact find?_setk_ne _ (fun heq => hk heq.symm) _

/-- C6 witness: paying at time 1000 overwrites the old expiry 123 with
`1000 + 365` days. -/
theorem c6_witness :
    find? 7 (Updated.pay_membership_fee LU 7 1000).1.members =
      some ({ memLU with membership_expiry_date := 1000 + 365 * daySecs
                         last_fee_payment_date := 1000 }) :=
  (c6_pay_fee_resets_expiry LU 7 1000 memLU rfl).2.1

/-- C7: `delete_book` on an existing book fails (the source's `False`, the
spec's `Conflict`) and leaves the whole store unchanged whenever the
book has at least one open transaction; once no transaction for the book
is open it removes exactly that book and returns `True`. -/
theorem c7_delete_book_conflict (lib : LibraryManagementSystem)
    (book_id : Nat) (book : Book)
    (hfind : find? book_id lib.books = some book) :
    (0 < openTxFor book_id lib.transactions →
      delete_book lib book_id = (lib, false)) ∧
    (openTxFor book_id lib.transactions = 0 →
      delete_book lib book_id = ({ lib with books := delk book_id lib.books }, true) ∧
      (NodupKeys lib.books → find? book_id (delk book_id lib.books) = none) ∧
      (∀ k, k ≠ book_id → find? k (delk book_id lib.books) = find? k lib.books)) := by
  unfold delete_book
  rw [hfind]
  dsimp only
  constructor
  · intro hpos
    rw [if_pos hpos]
  · intro hzero
    have hnpos : ¬ 0 < openTxFor book_id lib.transactions := by omega
    rw [if_neg hnpos]
    refine ⟨rfl, fun hnd => find?_delk_self hnd, ?_⟩
    intro k hk
    exact find?_delk_ne (fun heq => hk heq.symm) _

/-- C7 witness: in `L3` the book `B1000` has an open transaction, so
deleting it fails and changes nothing. -/
theorem c7_witness : delete_book L3 1000 = (L3, false) :=
  (c7_delete_book_conflict L3 1000 bkL3 rfl).1 (by decide)

/-- C2: `borrow_book` checks its five preconditions in the spec's order,
each with its own failure kind (the unknown-member and unknown-book
cases share the `NotFound` kind, "Invalid member or book ID"): an input
violating a precondition while all earlier ones hold gets that
precondition's failure kind — in particular an input violating exactly
one precondition gets the kind named for it — and an input satisfying
all five succeeds. -/
theorem c2_borrow_precondition_order (lib : LibraryManagementSystem)
    (member_id book_id : Nat) (now : Int) :
    ((preMemberExists lib member_id = false ∨ preBookExists lib book_id = false) →
      (borrow_book lib member_id book_id now).2 = .notFound) ∧
    (preMemberExists lib member_id = true → preBookExists lib book_id = true →
      preMemberActive lib member_id = false →
      (borrow_book lib member_id book_id now).2 = .memberInactive) ∧
    (preMemberExists lib member_id = true → preBookExists lib book_id = true →
      preMemberActive lib member_id = true →
      preBookAvailable lib book_id = false →
      (borrow_book lib member_id book_id now).2 = .bookUnavailable) ∧
    (preMemberExists lib member_id = true → preBookExists lib book_id = true →
      preMemberActive lib member_id = true →
      preBookAvailable lib book_id = true →
      preUnderBorrowLimit lib member_id = false →
      (borrow_book lib member_id book_id now).2 = .borrowLimitExceeded) ∧
    (preMemberExists lib member_id = true → preBookExists lib book_id = true →
      preMemberActive lib member_id = true →
      preBookAvailable lib book_id = true →
      preUnderBorrowLimit lib member_id = true →
      (borrow_book lib member_id book_id now).2 = .ok lib.transaction_counter) := by
  unfold borrow_book preMemberExists preBookExists preMemberActive
    preBookAvailable preUnderBorrowLimit
  cases hm : find? member_id lib.members with
  | none =>
    cases hb : find? book_id lib.books with
    | none => exact ⟨fun _ => rfl, by simp, by simp, by simp, by simp⟩
    | some book => exact ⟨fun _ => rfl, by simp, by simp, by simp, by simp⟩
  | some member =>
    cases hb : find? book_id lib.books with
    | none => exact ⟨fun _ => rfl, by simp, by simp, by simp, by simp⟩
    | some book =>
      dsimp only
      refine ⟨?_, ?_, ?_, ?_, ?_⟩
      · rintro (h1 | h1) <;> simp at h1
      · intro h1 h2 h3
        rw [h3]
        rfl
      · intro h1 h2 h3 h4
        rw [h3]
        have hz : book.available_copies = 0 := by
          have := of_decide_eq_false h4
          omega
        simp [hz]
      · intro h1 h2 h3 h4 h5
        rw [h3]
        have hpos : 0 < book.available_copies := of_decide_eq_true h4
        have hge : 3 ≤ member.borrowed_books.length := by
          have := of_decide_eq_false h5
          omega
        have hnle : ¬ book.available_copies ≤ 0 := by omega
        simp only [Bool.not_true, Bool.false_eq_true, if_false]
        rw [if_neg hnle, if_pos hge]
      · intro h1 h2 h3 h4 h5
        rw [h3]
        have hpos : 0 < book.available_copies := of_decide_eq_true h4
        have hlt : member.borrowed_books.length < 3 := of_decide_eq_true h5
        have hnle : ¬ book.available_copies ≤ 0 := by omega
        have hnge : ¬ 3 ≤ member.borrowed_books.length := by omega
        simp only [Bool.not_true, Bool.false_eq_true, if_false]
        rw [if_neg hnle, if_neg hnge]

/-- C2 witness: in `libC2` only the member-active precondition fails, and
the reported kind is `MemberInactive` ("Member account is inactive"). -/
theorem c2_witness :
    (borrow_book libC2 2 1 0).2 = BorrowResult.memberInactive :=
  (c2_borrow_precondition_order libC2 2 1 0).2.1 (by decide) (by decide) (by decide)

/-- C5: `borrow_book` and `return_book` are failure-atomic — any failed
call returns the store exactly as it was — and a successful borrow
records the transaction together with the copy decrement (never one
without the other). -/
theorem c5_borrow_return_atomic (lib : LibraryManagementSystem)
    (member_id book_id transaction_id : Nat) (now : Int) :
    ((borrow_book lib member_id book_id now).2.isOk = false →
      (borrow_book lib member_id book_id now).1 = lib) ∧
    (∀ lib' r, return_book lib transaction_id now = some (lib', r) →
      r.isOk = false → lib' = lib) ∧
    (∀ tid, (borrow_book lib member_id book_id now).2 = .ok tid →
      ∃ t book book2,
        find? tid (borrow_book lib member_id book_id now).1.transactions = some t ∧
        t.member_id = member_id ∧ t.book_id = book_id ∧ t.return_date = none ∧
        find? book_id lib.books = some book ∧
        find? book_id (borrow_book lib member_id book_id now).1.books = some book2 ∧
        book2.available_copies + 1 = book.available_copies) := by
  refine ⟨?_, ?_, ?_⟩
  · unfold borrow_book
    cases hm : find? member_id lib.members with
    | none => intro hf; rfl
    | some member =>
      cases hb : find? book_id lib.books with
      | none => intro hf; rfl
      | some book =>
        dsimp only
        split
        · intro hf; rfl
        split
        · intro hf; rfl
        split
        · intro hf; rfl
        intro hf
        exact absurd hf (by simp [BorrowResult.isOk])
  · intro lib' r hcall hf
    unfold return_book at hcall
    cases hfind : find? transaction_id lib.transactions with
    | none =>
      rw [hfind] at hcall
      simp only [Option.some.injEq, Prod.mk.injEq] at hcall
      exact hcall.1.symm
    | some t =>
      rw [hfind] at hcall
      dsimp only at hcall
      by_cases hrd : t.return_date.isSome
      · rw [if_pos hrd] at hcall
        simp only [Option.some.injEq, Prod.mk.injEq] at hcall
        exact hcall.1.symm
      · rw [if_neg hrd] at hcall
        split at hcall
        · exact absurd hcall (by simp)
        split at hcall
        · exact absurd hcall (by simp)
        split at hcall
        swap
        · exact absurd hcall (by simp)
        simp only [Option.some.injEq, Prod.mk.injEq] at hcall
        rw [← hcall.2] at hf
        exact absurd hf (by simp [ReturnResult.isOk])
  · intro tid
    unfold borrow_book
    cases hm : find? member_id lib.members with
    | none => intro hf; exact absurd hf (by simp)
    | some member =>
      cases hb : find? book_id lib.books with
      | none => intro hf; exact absurd hf (by simp)
      | some book =>
        dsimp only
        split
        · intro hf; exact absurd hf (by simp)
        split
        · intro hf; exact absurd hf (by simp)
        split
        · intro hf; exact absurd hf (by simp)
        rename_i hact havail hlim
        intro hf
        have htid : tid = lib.transaction_counter := by
          have := hf
          simp only [BorrowResult.ok.injEq] at this
          exact this.symm
        subst htid
        have havail' : 0 < book.available_copies := Nat.lt_of_not_le havail
        refine ⟨({ member_id := member_id, book_id := book_id, borrow_date := now
                   due_date := now + 14 * daySecs, return_date := none, fine := 0 }),
          book,
          ({ book with available_copies := book.available_copies - 1
                       is_available := if book.available_copies - 1 = 0 then false
                                       else book.is_available }),
          ?_, rfl, rfl, rfl, rfl, ?_, ?_⟩
        · dsimp only
          rw [find?_cons_self]
        · dsimp only
          rw [find?_setk_self _ hb]
        · dsimp only
          omega

/-- C5 witness: a borrow with an unknown member and book fails and leaves
the initial store untouched. -/
theorem c5_witness : (borrow_book initLibrary 0 0 0).1 = initLibrary :=
  (c5_borrow_return_atomic initLibrary 0 0 0 0).1 (by decide)

/-- C3: returning an open transaction at time `now` stamps
`return_date = now` and computes the fine exactly once — zero when
`now <= due_date`, otherwise one currency unit per whole day overdue
(partial days truncate toward zero) — returns that fine to the caller,
and a second return of the same transaction reports `AlreadyReturned`
without touching anything.  A return exactly 3 days after the due date
costs exactly 3.  (An open transaction carries the fine 0 that
`Transaction.__init__` gave it, taken as the hypothesis `hfine`.) -/
theorem c3_fine_computation (lib : LibraryManagementSystem)
    (transaction_id : Nat) (now : Int) (t : Transaction) (book : Book)
    (member : Member)
    (hfind : find? transaction_id lib.transactions = some t)
    (hopen : t.return_date = none) (hfine : t.fine = 0)
    (hbook : find? t.book_id lib.books = some book)
    (hmem : find? t.member_id lib.members = some member)
    (hin : transaction_id ∈ member.borrowed_books) :
    ∃ lib',
      return_book lib transaction_id now =
        some (lib', .ok (if t.due_date < now then (now - t.due_date).toNat / 86400 else 0)) ∧
      find? transaction_id lib'.transactions =
        some ({ t with
                return_date := some now
                fine := if t.due_date < now then (now - t.due_date).toNat / 86400 else 0 }) ∧
      (now = t.due_date + 3 * daySecs →
        return_book lib transaction_id now = some (lib', .ok 3)) ∧
      (now ≤ t.due_date →
        return_book lib transaction_id now = some (lib', .ok 0)) ∧
      (∀ now2, return_book lib' transaction_id now2 = some (lib', .alreadyReturned)) := by
  have hmain : return_book lib transaction_id now =
      some ({ lib with
              transactions := setk transaction_id
                ({ t with
                    return_date := some now
                    fine := if t.due_date < now then (now - t.due_date).toNat / 86400 else 0 })
                lib.transactions
              books := setk t.book_id
                ({ book with
                    available_copies := book.available_copies + 1
                    is_available := true })
                lib.books
              members := setk t.member_id
                ({ member with
                    borrowed_books := member.borrowed_books.erase transaction_id })
                lib.members },
        .ok (if t.due_date < now then (now - t.due_date).toNat / 86400 else 0)) := by
    unfold return_book
    rw [hfind]
    dsimp only
    rw [hopen]
    simp only [Option.isSome_none, Bool.false_eq_true, if_false]
    rw [hbook]
    dsimp only
    rw [hmem]
    dsimp only
    rw [if_pos hin, hfine]
  refine ⟨_, hmain, ?_, ?_, ?_, ?_⟩
  · dsimp only
    exact find?_setk_self _ hfind
  · intro hnow
    rw [hmain, hnow]
    have hlt : t.due_date < t.due_date + 3 * daySecs := by
      unfold daySecs
      omega
    rw [if_pos hlt]
    have h3 : (t.due_date + 3 * daySecs - t.due_date).toNat / 86400 = 3 := by
      unfold daySecs
      have h259 : t.due_date + 3 * 86400 - t.due_date = 259200 := by ring
      rw [h259]
      rfl
    rw [h3]
  · intro hnow
    rw [hmain]
    have hnlt : ¬ t.due_date < now := by omega
    rw [if_neg hnlt]
  · intro now2
    unfold return_book
    dsimp only
    rw [find?_setk_self _ hfind]
    dsimp only
    rfl

/-- C3 witness: the loan in `L3` is due at second 1209600 (day 14);
returning it at second 1468800 (due date + 3 days) yields a fine of
exactly 3. -/
theorem c3_witness :
    (return_book L3 10000 1468800).map Prod.snd = some (ReturnResult.ok 3) := by
  obtain ⟨lib', h1, h2, h3, h4, h5⟩ :=
    c3_fine_computation L3 10000 1468800 _ bkL3 memL3 rfl rfl rfl rfl rfl (by decide)
  rw [h3 (by decide)]
  rfl

/-- C1: in every state reachable by the engine operations, every book's
`available_copies` plus its number of open transactions equals its
`total_copies`. -/
theorem c1_copies_invariant (lib : LibraryManagementSystem)
    (h : EngineReachable lib) (book_id : Nat) (book : Book)
    (hfind : find? book_id lib.books = some book) :
    book.available_copies + openTxFor book_id lib.transactions = book.total_copies :=
  (inv_of_reachable h).copies (book_id, book) (mem_of_find? hfind)

/-- C1 witness: in `L3` the book `B1000` has 1 copy in, 1 copy out, 2 in
total. -/
theorem c1_witness :
    1 + openTxFor 1000 L3.transactions = 2 :=
  c1_copies_invariant L3 reachable_L3 1000 bkL3 rfl

/-- C8 counterexample: the claim's particular "a freshly created book with
`total_copies = 0` has `is_available` false" is wrong — `Book.__init__`
sets `is_available = True` unconditionally, so adding a book with 0
copies yields `available_copies = 0` with `is_available` true. -/
theorem c8_counterexample :
    ¬ (∀ p ∈ ((add_book initLibrary "T" "A" "I" "G" 0).1).books,
        p.2.is_available = decide (0 < p.2.available_copies)) := by
  decide

/-- C8 (amended): in every engine-reachable state,
`is_available = (available_copies > 0)` holds for every book whose
`total_copies` is positive; a book created with `total_copies = 0`
instead keeps the constructor's `is_available = true` forever (its
`available_copies` stays 0, so the derived-flag equation fails for it). -/
theorem c8_is_available_invariant (lib : LibraryManagementSystem)
    (h : EngineReachable lib) (book_id : Nat) (book : Book)
    (hfind : find? book_id lib.books = some book) :
    (0 < book.total_copies →
      book.is_available = decide (0 < book.available_copies)) ∧
    (book.total_copies = 0 → book.is_available = true) := by
  have hflag := (inv_of_reachable h).avail_flag (book_id, book) (mem_of_find? hfind)
  dsimp only at hflag
  constructor
  · intro hpos
    rw [hflag]
    have hz : (book.total_copies == 0) = false := by
      simp only [beq_eq_false_iff_ne, ne_eq]
      omega
    rw [hz]
    simp
  · intro hz
    rw [hflag, hz]
    rfl

/-- C8 witness: the book in `L3` has positive stock, and its flag equals
the availability test. -/
theorem c8_witness :
    Book.is_available bkL3 = decide (0 < Book.available_copies bkL3) :=
  (c8_is_available_invariant L3 reachable_L3 1000 bkL3 rfl).1 (by decide)

/-- A keyword list naming no copy-accounting field leaves those three
fields of the folded book unchanged. -/
theorem foldl_bookKwarg_frame (kwargs : List BookKwarg)
    (h : ∀ k ∈ kwargs, BookKwarg.touchesCopies k = false) (b : Book) :
    (kwargs.foldl applyBookKwarg b).available_copies = b.available_copies ∧
    (kwargs.foldl applyBookKwarg b).total_copies = b.total_copies ∧
    (kwargs.foldl applyBookKwarg b).is_available = b.is_available := by
  induction kwargs generalizing b with
  | nil => exact ⟨rfl, rfl, rfl⟩
  | cons k ks ih =>
    have hk := h k (List.mem_cons_self _ _)
    have hrest : ∀ k2 ∈ ks, BookKwarg.touchesCopies k2 = false :=
      fun k2 hk2 => h k2 (List.mem_cons_of_mem _ hk2)
    have hstep : (applyBookKwarg b k).available_copies = b.available_copies ∧
        (applyBookKwarg b k).total_copies = b.total_copies ∧
        (applyBookKwarg b k).is_available = b.is_available := by
      cases k <;> simp_all [applyBookKwarg, BookKwarg.touchesCopies]
    rcases ih hrest (applyBookKwarg b k) with ⟨i1, i2, i3⟩
    rw [List.foldl_cons] at *
    exact ⟨i1.trans hstep.1, i2.trans hstep.2.1, i3.trans hstep.2.2⟩

/-- A keyword list not naming `borrowed_books` leaves it unchanged. -/
theorem foldl_memberKwarg_frame (kwargs : List MemberKwarg)
    (h : ∀ k ∈ kwargs, MemberKwarg.touchesBorrowed k = false) (m : Member) :
    (kwargs.foldl applyMemberKwarg m).borrowed_books = m.borrowed_books := by
  induction kwargs generalizing m with
  | nil => rfl
  | cons k ks ih =>
    have hk := h k (List.mem_cons_self _ _)
    have hrest : ∀ k2 ∈ ks, MemberKwarg.touchesBorrowed k2 = false :=
      fun k2 hk2 => h k2 (List.mem_cons_of_mem _ hk2)
    have hstep : (applyMemberKwarg m k).borrowed_books = m.borrowed_books := by
      cases k <;> simp_all [applyMemberKwarg, MemberKwarg.touchesBorrowed]
    rw [List.foldl_cons]
    exact (ih hrest (applyMemberKwarg m k)).trans hstep

/-- C9 counterexample: `update_book` forwards every keyword straight into
`setattr`, so a keyword update can change `available_copies` directly
(and `update_member` can overwrite `borrowed_books`), contradicting the
claim that those fields are left unchanged by every keyword update. -/
theorem c9_counterexample :
    ((find? 5 libC9.books).map Book.available_copies = some 2) ∧
    ((find? 5 (update_book libC9 5 [BookKwarg.available_copies 9]).1.books).map
        Book.available_copies = some 9) ∧
    ((find? 6 (update_member libC9 6 [MemberKwarg.borrowed_books []]).1.members).map
        Member.borrowed_books = some []) ∧
    (9 : Nat) ≠ 2 ∧ ([] : List Nat) ≠ [77] := by
  refine ⟨rfl, rfl, rfl, by decide, by decide⟩

/-- C9 (amended): `update_book` applies exactly the given keywords through
`setattr`, so it can mutate `available_copies`, `total_copies` and
`is_available` when a keyword names them; the frame property holds only
for updates naming none of those fields, and likewise `update_member`
preserves `borrowed_books` only when no keyword names it.  Neither
operation touches the other collections. -/
theorem c9_update_frame (lib : LibraryManagementSystem) :
    (∀ book_id kwargs book, find? book_id lib.books = some book →
      (∀ k ∈ kwargs, BookKwarg.touchesCopies k = false) →
      ∃ book2, find? book_id (update_book lib book_id kwargs).1.books = some book2 ∧
        book2.available_copies = book.available_copies ∧
        book2.total_copies = book.total_copies ∧
        book2.is_available = book.is_available) ∧
    (∀ member_id kwargs member, find? member_id lib.members = some member →
      (∀ k ∈ kwargs, MemberKwarg.touchesBorrowed k = false) →
      ∃ member2,
        find? member_id (update_member lib member_id kwargs).1.members = some member2 ∧
        member2.borrowed_books = member.borrowed_books) ∧
    (∀ book_id kwargs,
      (update_book lib book_id kwargs).1.members = lib.members ∧
      (update_book lib book_id kwargs).1.transactions = lib.transactions) ∧
    (∀ member_id kwargs,
      (update_member lib member_id kwargs).1.books = lib.books ∧
      (update_member lib member_id kwargs).1.transactions = lib.transactions) := by
  refine ⟨?_, ?_, ?_, ?_⟩
  · intro book_id kwargs book hfind hframe
    unfold update_book
    rw [hfind]
    dsimp only
    refine ⟨kwargs.foldl applyBookKwarg book, find?_setk_self _ hfind, ?_⟩
    exact foldl_bookKwarg_frame kwargs hframe book
  · intro member_id kwargs member hfind hframe
    unfold update_member
    rw [hfind]
    dsimp only
    refine ⟨kwargs.foldl applyMemberKwarg member, find?_setk_self _ hfind, ?_⟩
    exact foldl_memberKwarg_frame kwargs hframe member
  · intro book_id kwargs
    unfold update_book
    cases find? book_id lib.books <;> exact ⟨rfl, rfl⟩
  · intro member_id kwargs
    unfold update_member
    cases find? member_id lib.members <;> exact ⟨rfl, rfl⟩

/-- C9 witness: a keyword update that only renames the title leaves the
copy accounting of book 5 (2 of 4 copies, available) unchanged. -/
theorem c9_witness :
    (find? 5 (update_book libC9 5 [BookKwarg.title "X"]).1.books).map
      Book.available_copies = some 2 := by
  obtain ⟨book2, hf, ha, h2, h3⟩ :=
    (c9_update_frame libC9).1 5 [BookKwarg.title "X"] bkC9 rfl (by decide)
  rw [hf, Option.map_some', ha]
  rfl

/-- C10: in every engine-reachable state every open transaction refers to
a present book and a present member whose `borrowed_books` contains the
transaction id; consequently the unguarded lookups and the
`borrowed_books.remove` inside `return_book` can never fail (modelled by
`return_book` never returning `none`). -/
theorem c10_return_safety (lib : LibraryManagementSystem)
    (h : EngineReachable lib) :
    (∀ transaction_id t, find? transaction_id lib.transactions = some t →
      t.return_date = none →
      (find? t.book_id lib.books).isSome ∧
      ∃ member, find? t.member_id lib.members = some member ∧
        transaction_id ∈ member.borrowed_books) ∧
    (∀ transaction_id now, return_book lib transaction_id now ≠ none) := by
  have hinv := inv_of_reachable h
  constructor
  · intro transaction_id t hfind hopen
    rcases return_book_open_eq hinv hfind hopen 0 with
      ⟨book, member, hbook, hmem, hin, _⟩
    exact ⟨by rw [hbook]; rfl, member, hmem, hin⟩
  · intro transaction_id now
    cases hfind : find? transaction_id lib.transactions with
    | none =>
      unfold return_book
      rw [hfind]
      simp
    | some t =>
      by_cases hrd : t.return_date.isSome
      · unfold return_book
        rw [hfind]
        dsimp only
        rw [if_pos hrd]
        simp
      · have hopen : t.return_date = none := Option.not_isSome_iff_eq_none.mp hrd
        rcases return_book_open_eq hinv hfind hopen now with
          ⟨book, member, hbook, hmem, hin, heq⟩
        rw [heq]
        simp

/-- C10 witness: returning the open transaction of `L3` at any time does
not raise. -/
theorem c10_witness : return_book L3 10000 999 ≠ none :=
  (c10_return_safety L3 reachable_L3).2 10000 999

/-- C4: in every engine-reachable state no member has more than 3 open
transactions; a borrow by a member with exactly 3 open transactions —
with every earlier precondition satisfied — fails with
`BorrowLimitExceeded` and changes nothing; and after that member returns
one of their books, a borrow of any available book succeeds. -/
theorem c4_borrow_limit (lib : LibraryManagementSystem)
    (h : EngineReachable lib) :
    (∀ member_id member, find? member_id lib.members = some member →
      openTxForMember member_id lib.transactions ≤ 3) ∧
    (∀ member_id book_id now member book,
      find? member_id lib.members = some member →
      find? book_id lib.books = some book →
      member.is_active = true → 0 < book.available_copies →
      openTxForMember member_id lib.transactions = 3 →
      borrow_book lib member_id book_id now = (lib, .borrowLimitExceeded)) ∧
    (∀ member_id member transaction_id now lib' r,
      find? member_id lib.members = some member →
      member.is_active = true →
      openTxForMember member_id lib.transactions = 3 →
      transaction_id ∈ member.borrowed_books →
      return_book lib transaction_id now = some (lib', r) →
      ∀ book_id book2 now2, find? book_id lib'.books = some book2 →
        0 < book2.available_copies →
        (borrow_book lib' member_id book_id now2).2.isOk = true) := by
  have hinv := inv_of_reachable h
  refine ⟨?_, ?_, ?_⟩
  · intro member_id member hm
    rw [openTxForMember_eq_borrowed_length hinv hm]
    exact hinv.borrowed_le (member_id, member) (mem_of_find? hm)
  · intro member_id book_id now member book hm hb hact havail hcount
    have hlen : member.borrowed_books.length = 3 := by
      rw [openTxForMember_eq_borrowed_length hinv hm] at hcount
      exact hcount
    unfold borrow_book
    rw [hm, hb]
    dsimp only
    rw [hact]
    have hnle : ¬ book.available_copies ≤ 0 := by omega
    have hge : 3 ≤ member.borrowed_books.length := by omega
    simp only [Bool.not_true, Bool.false_eq_true, if_false]
    rw [if_neg hnle, if_pos hge]
  · intro member_id member transaction_id now lib' r hm hact hcount hin hcall
    have hlen : member.borrowed_books.length = 3 := by
      rw [openTxForMember_eq_borrowed_length hinv hm] at hcount
      exact hcount
    rcases (hinv.member_borrowed (member_id, member) (mem_of_find? hm)
        transaction_id).mp hin with ⟨t, hfind, htm, hopen⟩
    rcases return_book_open_eq hinv hfind hopen now with
      ⟨book, memberX, hbook, hmemX, hinX, heq⟩
    rw [heq] at hcall
    simp only [Option.some.injEq, Prod.mk.injEq] at hcall
    obtain ⟨hlib, hr⟩ := hcall
    have hmemX2 : memberX = member := by
      rw [htm] at hmemX
      rw [hm] at hmemX
      exact (Option.some_inj.mp hmemX).symm
    subst hmemX2
    intro book_id book2 now2 hb2 havail2
    have htm2 : t.member_id = member_id := htm
    have hm2 : find? member_id lib'.members =
        some ({ memberX with
                borrowed_books := memberX.borrowed_books.erase transaction_id }) := by
      rw [← hlib]
      dsimp only
      rw [← htm2]
      exact find?_setk_self _ hmemX
    have hlen2 : (memberX.borrowed_books.erase transaction_id).length = 2 := by
      rw [List.length_erase_of_mem hin, hlen]
    unfold borrow_book
    rw [hm2, hb2]
    dsimp only
    rw [hact]
    have hnle : ¬ book2.available_copies ≤ 0 := by omega
    have hnge : ¬ 3 ≤ (memberX.borrowed_books.erase transaction_id).length := by omega
    simp only [Bool.not_true, Bool.false_eq_true, if_false]
    rw [if_neg hnle, if_neg hnge]
    rfl

/-- C4 witness: the member of `L3`, holding one open transaction, is
within the limit. -/
theorem c4_witness : openTxForMember 100 L3.transactions ≤ 3 :=
  (c4_borrow_limit L3 reachable_L3).1 100 memL3 rfl

end LibSys
